import Mathlib

/-!
Shallow embedding of the scarabnet session layer (src/common.hpp,
src/client.hpp, src/server.hpp) and proofs about its packet codec,
thread-safe event queue, client/server send paths and network loops.

Machine integers (`uint8`, `uint32`) are modelled as `Nat` with explicit
`% 256` / `% 2^32` where the width matters; byte buffers are `List Nat`;
`std::optional` / nullable `std::unique_ptr` results are `Option`.
-/

namespace Scarabnet

/-- Types of events that can be polled from the server/client
(enum `EventType` in common.hpp). -/
inductive EventType : Type where
  | none
  | connect
  | disconnect
  | receive
  deriving DecidableEq

/-- Packet header: two `uint32` fields (`Packet::Header` in common.hpp);
`sizeof(Packet::Header) = 8`. -/
structure Header where
  id : Nat
  type : Nat
  deriving DecidableEq

/-- `Packet` in common.hpp: a header plus a byte payload
(`std::vector<uint8> data`). -/
structure Packet where
  header : Header
  data : List Nat
  deriving DecidableEq

/-- `Event` in common.hpp: peer id, event type, and an optional packet
(`std::unique_ptr<Packet>`, null modelled as `Option.none`). -/
structure Event where
  peer_id : Nat := 0
  type : EventType := EventType.none
  packet : Option Packet := Option.none
  deriving DecidableEq

/-- Byte decomposition of a `uint32` as laid out in memory by the `memcpy`
of `Packet::Header` in `PacketHelper::serialize_packet` (one fixed
platform byte order, taken little-endian). -/
def u32ToBytes (n : Nat) : List Nat :=
  [n % 256, n / 256 % 256, n / 65536 % 256, n / 16777216 % 256]

/-- Reassembly of four bytes into a `uint32`, as done by the `memcpy` into
the header fields in `PacketHelper::deserialize_packet`. -/
def bytesToU32 (bs : List Nat) : Nat :=
  match bs with
  | [b0, b1, b2, b3] => b0 + b1 * 256 + b2 * 65536 + b3 * 16777216
  | _ => 0

/-- `PacketHelper::serialize_packet` (common.hpp 147-157): the 8 header
bytes followed by the raw payload bytes. -/
def serialize_packet (p : Packet) : List Nat :=
  u32ToBytes p.header.id ++ u32ToBytes p.header.type ++ p.data

/-- `PacketHelper::deserialize_packet` (common.hpp 159-176): returns null
(`Option.none`) when the input is shorter than `sizeof(Packet::Header)`,
otherwise reads the header from the first 8 bytes and copies the rest
(possibly zero bytes) into the payload. -/
def deserialize_packet (bytes : List Nat) : Option Packet :=
  if bytes.length < 8 then Option.none
  else Option.some
    { header := { id := bytesToU32 (bytes.take 4),
                  type := bytesToU32 ((bytes.drop 4).take 4) },
      data := bytes.drop 8 }

/-- `Packet::unpack_data<T>` (common.hpp 75-89), parameterized by
`sizeofT = sizeof(T)`: returns `nullopt` when the payload is empty or its
size differs from `sizeof(T)`; otherwise the result object is the exact
byte image of the payload (the `memcpy`), which we return as those bytes. -/
def Packet.unpack_data (sizeofT : Nat) (p : Packet) : Option (List Nat) :=
  if p.data = [] ∨ p.data.length ≠ sizeofT then Option.none
  else Option.some p.data

namespace TSQueue

/-!
`TSQueue<T>` (common.hpp 180-262) is a mutex-protected `std::deque<T>`.
Every operation holds the single mutex for its whole duration, so the
externally observable behaviour is a sequence of atomic deque operations;
we model the deque as a `List` with the front at the head.
-/

/-- `TSQueue::push_back`: appends an item at the back. -/
def push_back (q : List α) (item : α) : List α :=
  q ++ [item]

/-- `TSQueue::push_front`: prepends an item at the front. -/
def push_front (q : List α) (item : α) : List α :=
  item :: q

/-- `TSQueue::pop_front`: removes and returns the front item (calling it on
an empty queue is undefined in the source; modelled as `Option.none`). -/
def pop_front : List α → Option (α × List α)
  | [] => Option.none
  | x :: xs => Option.some (x, xs)

/-- `TSQueue::pop_back` (common.hpp 252-257) exactly as written: it reads
`queue.back()` but then calls `queue.pop_front()`, so the returned item is
the back one while the removed item is the front one. -/
def pop_back : List α → Option (α × List α)
  | [] => Option.none
  | x :: xs => Option.some (List.getLastD xs x, xs)

/-- Pushing a whole sequence of items to the back, one `push_back` each. -/
def push_all (q : List α) (items : List α) : List α :=
  items.foldl push_back q

/-- Draining the queue by repeated `pop_front` until it is empty. -/
def pop_all : List α → List α
  | [] => []
  | x :: xs =>
    match pop_front (x :: xs) with
    | Option.none => []
    | Option.some (y, _) => y :: pop_all xs

end TSQueue

/-- Buffers handed to the ENet transport engine by the send paths:
`enet_peer_send(peer, 0, packet)` or `enet_host_broadcast(host, 0, packet)`. -/
inductive TransportOp : Type where
  | peerSend (peer : Nat) (buffer : List Nat)
  | hostBroadcast (buffer : List Nat)
  deriving DecidableEq

/-- State of the outward-facing client, as read and written by
`Client::send` and `Client::network_thread_loop`: the two atomic flags and
the event queue. -/
structure ClientState where
  running : Bool
  connected : Bool
  events : List Event
  deriving DecidableEq

/-- `Client::send` (client.hpp 129-144): a `const` method, so the client
state is returned unchanged; it returns early, handing nothing to the
engine, when `connected` is down, and otherwise hands the serialized
buffer to `enet_peer_send` (the single server peer, written 0). -/
def clientSend (s : ClientState) (p : Packet) : ClientState × Option TransportOp :=
  if s.connected = false then (s, Option.none)
  else (s, Option.some (TransportOp.peerSend 0 (serialize_packet p)))

/-- Fields of `Server` read by `Server::send` / `Server::broadcast`: the
atomic `running` flag and the `clients` registry (id to `ENetPeer*`
handle, peer handles modelled as `Nat`). -/
structure ServerSendState where
  running : Bool
  clients : List (Nat × Nat)
  deriving DecidableEq

/-- `Server::send` (server.hpp 115-152), a `const` method (state returned
unchanged). The guard is `if (this->running) return;` exactly as in the
source; past it, an absent `client_id` in the registry returns with
nothing sent, and otherwise the serialized buffer goes to
`enet_peer_send`. -/
def serverSend (s : ServerSendState) (client_id : Nat) (p : Packet) :
    ServerSendState × Option TransportOp :=
  if s.running then (s, Option.none)
  else
    match s.clients.lookup client_id with
    | Option.none => (s, Option.none)
    | Option.some peer => (s, Option.some (TransportOp.peerSend peer (serialize_packet p)))

/-- `Server::broadcast` (server.hpp 154-176): same `if (this->running)
return;` guard, then hands the serialized buffer to
`enet_host_broadcast`. -/
def serverBroadcast (s : ServerSendState) (p : Packet) :
    ServerSendState × Option TransportOp :=
  if s.running then (s, Option.none)
  else (s, Option.some (TransportOp.hostBroadcast (serialize_packet p)))

/-- Low-level ENet notification kinds delivered to
`Client::network_thread_loop` by `enet_host_service`
(`disconnect` covers both `ENET_EVENT_TYPE_DISCONNECT` and
`ENET_EVENT_TYPE_DISCONNECT_TIMEOUT`, which share a case; `other` is any
kind falling to the default branch). -/
inductive ClientNotif : Type where
  | connect
  | receive (raw : List Nat)
  | disconnect
  | other
  deriving DecidableEq

/-- One primitive state-mutating statement of the client loop body:
writing an atomic flag, or pushing an event onto the queue. -/
inductive Action : Type where
  | setRunning (b : Bool)
  | setConnected (b : Bool)
  | pushEvent (e : Event)
  deriving DecidableEq

/-- The switch body of `Client::network_thread_loop` (client.hpp 177-214)
for one notification, as the ordered sequence of state-mutating statements
the source performs (`serverid = 0` on every pushed event). -/
def clientHandle (n : ClientNotif) : List Action :=
  match n with
  | ClientNotif.connect =>
      [Action.setConnected true,
       Action.pushEvent { peer_id := 0, type := EventType.connect }]
  | ClientNotif.receive raw =>
      [Action.pushEvent { peer_id := 0, type := EventType.receive,
                          packet := deserialize_packet raw }]
  | ClientNotif.disconnect =>
      [Action.setRunning false,
       Action.setConnected false,
       Action.pushEvent { peer_id := 0, type := EventType.disconnect }]
  | ClientNotif.other => []

/-- Effect of one primitive statement on the client state. -/
def applyAction (s : ClientState) : Action → ClientState
  | Action.setRunning b => { s with running := b }
  | Action.setConnected b => { s with connected := b }
  | Action.pushEvent e => { s with events := TSQueue.push_back s.events e }

/-- Runs a statement sequence and records, at each `pushEvent`, the value
the `connected` flag holds at the moment the event becomes visible in the
queue: what a consumer polling that event can observe at the earliest. -/
def observePushes : ClientState → List Action → List (Event × Bool)
  | _, [] => []
  | s, a :: rest =>
    match a with
    | Action.pushEvent e => (e, s.connected) :: observePushes (applyAction s a) rest
    | _ => observePushes (applyAction s a) rest

/-- The events a statement sequence pushes onto the queue, in order. -/
def pushedEvents (acts : List Action) : List Event :=
  acts.filterMap (fun a =>
    match a with
    | Action.pushEvent e => Option.some e
    | _ => Option.none)

/-- Low-level ENet notification kinds delivered to
`Server::network_thread_loop`, with the transport peer handle they carry. -/
inductive ServerNotif : Type where
  | connect (peer : Nat)
  | receive (peer : Nat) (raw : List Nat)
  | disconnect (peer : Nat)
  | other
  deriving DecidableEq

/-- State of the server touched by its network loop: the `curid` counter
(a `uint32`), the `clients` registry (id to peer handle), the ids stashed
on the peers themselves (`event.peer->data`, keyed by peer handle), and
the event queue. -/
structure ServerState where
  curid : Nat
  clients : List (Nat × Nat)
  peerData : List (Nat × Nat)
  events : List Event
  deriving DecidableEq

/-- Server fields at construction: `curid` starts at 1, no clients, empty
queue. -/
def serverInit : ServerState :=
  { curid := 1, clients := [], peerData := [], events := [] }

/-- Keyed insert-or-overwrite, modelling `unordered_map::operator[]=` and
the assignment to `peer->data`. -/
def setAssoc (m : List (Nat × Nat)) (k v : Nat) : List (Nat × Nat) :=
  match m with
  | [] => [(k, v)]
  | (k2, v2) :: rest => if k2 = k then (k, v) :: rest else (k2, v2) :: setAssoc rest k v

/-- Keyed erase, modelling `unordered_map::erase`. -/
def eraseAssoc (m : List (Nat × Nat)) (k : Nat) : List (Nat × Nat) :=
  match m with
  | [] => []
  | (k2, v2) :: rest => if k2 = k then rest else (k2, v2) :: eraseAssoc rest k

/-- Reading `(uintptr_t)event.peer->data`: the stashed id, or 0 when the
pointer still holds its null default. -/
def getPeerData (m : List (Nat × Nat)) (peer : Nat) : Nat :=
  match m.lookup peer with
  | Option.none => 0
  | Option.some v => v

/-- The switch body of `Server::network_thread_loop` (server.hpp 184-237)
for one notification. On CONNECT: `newid = curid++` (a `uint32`, hence the
`% 2^32`), registry insert, id stashed on the peer, `Connect` event pushed.
On RECEIVE: id read from the peer, `Receive` event pushed with the
deserialized packet. On DISCONNECT/TIMEOUT: id read from the peer, registry
erase, `Disconnect` event pushed. -/
def serverStep (s : ServerState) (n : ServerNotif) : ServerState :=
  match n with
  | ServerNotif.connect peer =>
      let newid := s.curid
      { s with
        curid := (s.curid + 1) % 2 ^ 32,
        clients := setAssoc s.clients newid peer,
        peerData := setAssoc s.peerData peer newid,
        events := TSQueue.push_back s.events { peer_id := newid, type := EventType.connect } }
  | ServerNotif.receive peer raw =>
      let peerid := getPeerData s.peerData peer
      { s with
        events := TSQueue.push_back s.events
          { peer_id := peerid, type := EventType.receive, packet := deserialize_packet raw } }
  | ServerNotif.disconnect peer =>
      let peerid := getPeerData s.peerData peer
      { s with
        clients := eraseAssoc s.clients peerid,
        events := TSQueue.push_back s.events { peer_id := peerid, type := EventType.disconnect } }
  | ServerNotif.other => s

/-- The server network loop over a whole sequence of notifications. -/
def serverRun (s : ServerState) (ns : List ServerNotif) : ServerState :=
  ns.foldl serverStep s

/-- The ids carried by the `Connect` events of an event list, in order. -/
def connectIdsOf (events : List Event) : List Nat :=
  (events.filter (fun e => e.type == EventType.connect)).map (fun e => e.peer_id)

/-- The client ids a freshly constructed server assigns while processing a
notification sequence, in acceptance order. -/
def serverAssignedIds (ns : List ServerNotif) : List Nat :=
  connectIdsOf (serverRun serverInit ns).events

/-- Number of CONNECT notifications in a sequence. -/
def connectCount (ns : List ServerNotif) : Nat :=
  (ns.filter (fun n =>
    match n with
    | ServerNotif.connect _ => true
    | _ => false)).length

/-- The id sequence produced by `k` post-increments of a `uint32` counter
starting at `c`. -/
def idsFrom (c : Nat) : Nat → List Nat
  | 0 => []
  | Nat.succ k => c :: idsFrom ((c + 1) % 2 ^ 32) k

/-- Concrete event: peer 1 connected (used as a queue element below). -/
def evA : Event := { peer_id := 1, type := EventType.connect }

/-- Concrete event: data received from peer 2 (used as a queue element
below). -/
def evB : Event := { peer_id := 2, type := EventType.receive }

/-- Concrete packet `{id: 1, type: 2, payload: "hi"}` (bytes 104 105). -/
def packet0 : Packet := { header := { id := 1, type := 2 }, data := [104, 105] }

/-- Reading back the four bytes laid out for a `uint32` value recovers the
value. -/
theorem u32_bytes_left_inverse (n : Nat) (h : n < 2 ^ 32) :
    bytesToU32 (u32ToBytes n) = n := by
  simp only [u32ToBytes, bytesToU32]
  omega

/-- Laying out the `uint32` assembled from four bytes recovers those
bytes. -/
theorem u32_bytes_right_inverse (a b c d : Nat)
    (ha : a < 256) (hb : b < 256) (hc : c < 256) (hd : d < 256) :
    u32ToBytes (bytesToU32 [a, b, c, d]) = [a, b, c, d] := by
  simp only [u32ToBytes, bytesToU32, List.cons.injEq, and_true]
  refine ⟨?_, ?_, ?_, ?_⟩ <;> omega

/-- Claim C2: for every header pair (id, type) -- `uint32` values -- and
every byte payload, the empty one included, decoding the encoding of the
packet `{id, type, P}` succeeds and yields a packet with exactly those
header fields and exactly that payload. -/
theorem packet_encode_decode_roundtrip (id ty : Nat) (data : List Nat)
    (h1 : id < 2 ^ 32) (h2 : ty < 2 ^ 32) :
    deserialize_packet (serialize_packet { header := { id := id, type := ty }, data := data }) =
      Option.some { header := { id := id, type := ty }, data := data } := by
  simp only [serialize_packet, deserialize_packet, u32ToBytes, List.cons_append,
    List.nil_append, List.length_cons]
  rw [if_neg (by omega)]
  simp only [List.take_succ_cons, List.take_zero, List.drop_succ_cons, List.drop_zero,
    Option.some.injEq]
  have hid := u32_bytes_left_inverse id h1
  have hty := u32_bytes_left_inverse ty h2
  simp only [u32ToBytes, bytesToU32] at hid hty
  simp only [bytesToU32]
  rw [hid, hty]

/-- List form of `u32_bytes_right_inverse` for an arbitrary 4-byte list. -/
theorem u32_bytes_right_inverse_list (l : List Nat) (hl : l.length = 4)
    (hb : ∀ b ∈ l, b < 256) : u32ToBytes (bytesToU32 l) = l := by
  rcases l with _ | ⟨a, _ | ⟨b, _ | ⟨c, _ | ⟨d, _ | ⟨e, t⟩⟩⟩⟩⟩ <;> simp at hl
  exact u32_bytes_right_inverse a b c d (hb a (by simp)) (hb b (by simp))
    (hb c (by simp)) (hb d (by simp))

/-- Claim C7: `PacketHelper::deserialize_packet` fails, returning no
packet, exactly on inputs shorter than 8 bytes, the empty input included;
on any input of at least 8 bytes it succeeds, the header fields holding
exactly the first 8 bytes (their byte layout reproduces `bs.take 8`) and
the payload the remaining, possibly zero, bytes. -/
theorem deserialize_truncation_spec (bs : List Nat) (hb : ∀ b ∈ bs, b < 256) :
    (deserialize_packet bs = Option.none ↔ bs.length < 8) ∧
    (∀ p, deserialize_packet bs = Option.some p →
      u32ToBytes p.header.id ++ u32ToBytes p.header.type = bs.take 8 ∧
      p.data = bs.drop 8) := by
  by_cases h : bs.length < 8
  · constructor
    · simp [deserialize_packet, h]
    · intro p hp
      simp [deserialize_packet, h] at hp
  · constructor
    · simp [deserialize_packet, h]
    · intro p hp
      simp only [deserialize_packet, if_neg h, Option.some.injEq] at hp
      subst hp
      refine ⟨?_, rfl⟩
      have h4 : (bs.take 4).length = 4 := by simp; omega
      have h4d : ((bs.drop 4).take 4).length = 4 := by simp; omega
      rw [u32_bytes_right_inverse_list _ h4 (fun b hbmem => hb b (List.take_subset _ _ hbmem)),
        u32_bytes_right_inverse_list _ h4d
          (fun b hbmem => hb b (List.drop_subset _ _ (List.take_subset _ _ hbmem)))]
      rw [show (8 : Nat) = 4 + 4 from rfl, List.take_add]

/-- Claim C8: `Packet::unpack_data<T>`, with `n = sizeof(T)` (at least 1
for every C++ type), returns a value iff the payload length equals
`sizeof(T)`; when it succeeds the returned value is the exact byte image
of the payload, and on size mismatch the result is an absent `Option`,
never a fatal error. -/
theorem unpack_data_size_spec (n : Nat) (p : Packet) (hn : 1 ≤ n) :
    ((Packet.unpack_data n p).isSome ↔ p.data.length = n) ∧
    (∀ v, Packet.unpack_data n p = Option.some v → v = p.data) := by
  by_cases hcond : p.data = [] ∨ p.data.length ≠ n
  · constructor
    · simp only [Packet.unpack_data, if_pos hcond, Option.isSome_none, Bool.false_eq_true,
        false_iff]
      rcases hcond with h1 | h2
      · rw [h1]; simp; omega
      · exact h2
    · intro v hv
      simp [Packet.unpack_data, hcond] at hv
  · push_neg at hcond
    have hno : ¬(p.data = [] ∨ p.data.length ≠ n) := by
      push_neg
      exact hcond
    constructor
    · simp [Packet.unpack_data, hcond.1, hcond.2]
    · intro v hv
      simp only [Packet.unpack_data, if_neg hno, Option.some.injEq] at hv
      exact hv.symm

/-- Pushing a sequence to the back appends it to the queue contents. -/
theorem push_all_eq_append (q items : List α) :
    TSQueue.push_all q items = q ++ items := by
  induction items generalizing q with
  | nil => simp [TSQueue.push_all]
  | cons x xs ih =>
    simp only [TSQueue.push_all, List.foldl_cons] at ih ⊢
    rw [ih (TSQueue.push_back q x)]
    simp [TSQueue.push_back]

/-- Draining by repeated `pop_front` returns the queue contents front to
back. -/
theorem pop_all_id (q : List α) : TSQueue.pop_all q = q := by
  induction q with
  | nil => rfl
  | cons x xs ih => simp [TSQueue.pop_all, TSQueue.pop_front, ih]

/-- Claim C3: pushing any sequence of events to the back of the event
queue and popping from the front returns exactly those events in push
order, after the earlier contents, with no event lost or duplicated. The
single mutex makes every queue operation atomic, so any interleaving of
concurrent pushes is some sequential order of pushes, covered by the
arbitrary prior contents `q`. -/
theorem event_queue_fifo (q es : List Event) :
    TSQueue.pop_all (TSQueue.push_all q es) = q ++ es := by
  rw [push_all_eq_append, pop_all_id]

/-- Claim C4 (code bug, evaluated at the failing input): on the queue
[evA, evB], `TSQueue::pop_back` returns the back item evB but removes the
front item, leaving [evB]; the claim, and the comment on the function
itself, require the back item removed, leaving [evA]. -/
theorem pop_back_removes_front_item :
    TSQueue.pop_back [evA, evB] = Option.some (evB, [evB]) ∧
    Option.some (evB, [evB]) ≠ Option.some (evB, [evA]) := by
  constructor
  · rfl
  · decide

/-- Claim C1 (code bug, evaluated at the failing input): with
`running = false` and client 1 registered at peer handle 42,
`Server::send` hands the serialized buffer to `enet_peer_send` and
`Server::broadcast` hands it to `enet_host_broadcast`, instead of
rejecting: the guard `if (this->running) return;` is inverted relative to
the claim (and rejects every send issued while the server is running). -/
theorem server_send_when_not_running :
    (serverSend { running := false, clients := [(1, 42)] } 1 packet0).2 =
      Option.some (TransportOp.peerSend 42 (serialize_packet packet0)) ∧
    (serverBroadcast { running := false, clients := [(1, 42)] } packet0).2 =
      Option.some (TransportOp.hostBroadcast (serialize_packet packet0)) := by
  constructor <;> rfl

/-- Claim C9: a send on a Client whose `connected` flag is down, and a
send to a client id absent from the Server registry (whatever the
`running` flag), return without handing any buffer to the transport
engine and leave the Client/Server state unchanged. -/
theorem send_noop_spec (cs : ClientState) (ss : ServerSendState) (cid : Nat) (p : Packet)
    (hc : cs.connected = false) (hs : ss.clients.lookup cid = Option.none) :
    clientSend cs p = (cs, Option.none) ∧ serverSend ss cid p = (ss, Option.none) := by
  constructor
  · simp [clientSend, hc]
  · by_cases hr : ss.running
    · simp [serverSend, hr]
    · simp [serverSend, hr, hs]

/-- Witness for `send_noop_spec` at concrete states. -/
theorem send_noop_spec_witness :
    clientSend { running := false, connected := false, events := [] } packet0 =
        ({ running := false, connected := false, events := [] }, Option.none) ∧
      serverSend { running := false, clients := [(2, 5)] } 1 packet0 =
        ({ running := false, clients := [(2, 5)] }, Option.none) :=
  send_noop_spec _ _ _ _ rfl rfl

/-- Claim C10: every event the Client network loop pushes onto its queue,
whatever the notification kind, carries `peer_id = 0`. -/
theorem client_events_peer_id_zero (n : ClientNotif) (e : Event)
    (h : e ∈ pushedEvents (clientHandle n)) : e.peer_id = 0 := by
  cases n with
  | connect =>
    simp [pushedEvents, clientHandle] at h
    subst h
    rfl
  | receive raw =>
    simp [pushedEvents, clientHandle] at h
    subst h
    rfl
  | disconnect =>
    simp [pushedEvents, clientHandle] at h
    subst h
    rfl
  | other => simp [pushedEvents, clientHandle] at h

/-- Witness for `client_events_peer_id_zero` at the CONNECT notification. -/
theorem client_events_peer_id_zero_witness :
    ({ peer_id := 0, type := EventType.connect } : Event).peer_id = 0 :=
  client_events_peer_id_zero ClientNotif.connect _ (by decide)

/-- Claim C6: in the Client network loop the `connected` flag is written
strictly before the matching event is pushed, so at the moment any event
becomes visible in the queue the flag is already consistent with it:
`true` when the event is a Connect, `false` when it is a Disconnect. -/
theorem client_flag_consistent_before_event (s : ClientState) (n : ClientNotif)
    (e : Event) (b : Bool) (h : (e, b) ∈ observePushes s (clientHandle n)) :
    (e.type = EventType.connect → b = true) ∧
    (e.type = EventType.disconnect → b = false) := by
  cases n with
  | connect =>
    simp [clientHandle, observePushes, applyAction] at h
    obtain ⟨rfl, rfl⟩ := h
    decide
  | receive raw =>
    simp [clientHandle, observePushes, applyAction] at h
    obtain ⟨rfl, rfl⟩ := h
    constructor <;> intro h2 <;> simp at h2
  | disconnect =>
    simp [clientHandle, observePushes, applyAction] at h
    obtain ⟨rfl, rfl⟩ := h
    decide
  | other => simp [clientHandle, observePushes] at h

/-- Witness for `client_flag_consistent_before_event`: a client not yet
connected processing a CONNECT notification. -/
theorem client_flag_consistent_before_event_witness :
    (({ peer_id := 0, type := EventType.connect } : Event).type = EventType.connect →
      true = true) ∧
    (({ peer_id := 0, type := EventType.connect } : Event).type = EventType.disconnect →
      true = false) :=
  client_flag_consistent_before_event
    { running := true, connected := false, events := [] } ClientNotif.connect _ _ (by decide)

/-- Connect-event ids of a concatenation. -/
theorem connectIdsOf_append (l1 l2 : List Event) :
    connectIdsOf (l1 ++ l2) = connectIdsOf l1 ++ connectIdsOf l2 := by
  simp [connectIdsOf, List.filter_append]

/-- Running the server loop appends one Connect event per CONNECT
notification, whose ids are the successive values of the `curid`
counter. -/
theorem serverRun_connect_ids (ns : List ServerNotif) :
    ∀ s : ServerState, connectIdsOf (serverRun s ns).events =
      connectIdsOf s.events ++ idsFrom s.curid (connectCount ns) := by
  induction ns with
  | nil => intro s; simp [serverRun, connectCount, idsFrom]
  | cons n rest ih =>
    intro s
    rw [serverRun, List.foldl_cons]
    have hrest := ih (serverStep s n)
    rw [serverRun] at hrest
    rw [hrest]
    cases n with
    | connect peer =>
      have hcc : connectCount (ServerNotif.connect peer :: rest) = connectCount rest + 1 := by
        simp [connectCount, List.filter_cons]
      rw [hcc, idsFrom]
      simp only [serverStep, TSQueue.push_back]
      rw [connectIdsOf_append]
      simp [connectIdsOf]
    | receive peer raw =>
      simp only [serverStep, TSQueue.push_back]
      rw [connectIdsOf_append]
      simp [connectIdsOf, connectCount]
    | disconnect peer =>
      simp only [serverStep, TSQueue.push_back]
      rw [connectIdsOf_append]
      simp [connectIdsOf, connectCount]
    | other =>
      simp [serverStep, connectCount]

/-- From a fresh server the assigned ids are the counter values starting
at 1. -/
theorem serverAssignedIds_eq_idsFrom (ns : List ServerNotif) :
    serverAssignedIds ns = idsFrom 1 (connectCount ns) := by
  rw [serverAssignedIds, serverRun_connect_ids ns serverInit]
  simp [serverInit, connectIdsOf]

/-- As long as the counter does not pass 2^32 the id sequence is the
plain arithmetic progression. -/
theorem idsFrom_eq_range (k : Nat) :
    ∀ c, c + k ≤ 2 ^ 32 → idsFrom c k = List.range' c k := by
  induction k with
  | zero => intro c _; rfl
  | succ k ih =>
    intro c hc
    rw [idsFrom, List.range'_succ c k 1]
    cases k with
    | zero => rfl
    | succ k2 =>
      have h1 : c + 1 < 2 ^ 32 := by omega
      rw [Nat.mod_eq_of_lt h1]
      rw [ih (c + 1) (by omega)]

/-- Once the counter passes 2^32 it wraps and the id 0 is assigned. -/
theorem zero_mem_idsFrom (k : Nat) :
    ∀ c, c < 2 ^ 32 → 2 ^ 32 < c + k → 0 ∈ idsFrom c k := by
  induction k with
  | zero => intro c h1 h2; exact absurd h2 (by omega)
  | succ k ih =>
    intro c h1 h2
    rw [idsFrom]
    by_cases hc : c = 0
    · subst hc; exact List.mem_cons_self _ _
    · apply List.mem_cons_of_mem
      by_cases hc1 : c + 1 < 2 ^ 32
      · rw [Nat.mod_eq_of_lt hc1]
        exact ih (c + 1) hc1 (by omega)
      · have hceq : c + 1 = 2 ^ 32 := by omega
        rw [hceq, Nat.mod_self]
        cases k with
        | zero => exact absurd h2 (by omega)
        | succ k2 => rw [idsFrom]; exact List.mem_cons_self _ _

/-- Counting CONNECTs in a constant notification sequence. -/
theorem connectCount_replicate (n peer : Nat) :
    connectCount (List.replicate n (ServerNotif.connect peer)) = n := by
  induction n with
  | zero => rfl
  | succ n ih =>
    rw [List.replicate_succ, connectCount, List.filter_cons]
    rw [connectCount] at ih
    simp [ih]

/-- Claim C5 (amended): for every notification sequence containing fewer
than 2^32 CONNECTs, the ids a fresh Server assigns are exactly
1, 2, ..., hence pairwise distinct positive integers, starting at 1,
strictly increasing with acceptance order, and never reused within the
sequence even after the client holding one disconnects. -/
theorem server_ids_distinct_monotone (ns : List ServerNotif)
    (h : connectCount ns < 2 ^ 32) :
    serverAssignedIds ns = List.range' 1 (connectCount ns) ∧
    (serverAssignedIds ns).Nodup ∧
    (∀ i ∈ serverAssignedIds ns, 0 < i) ∧
    (serverAssignedIds ns).Chain' (· < ·) := by
  have he : serverAssignedIds ns = List.range' 1 (connectCount ns) := by
    rw [serverAssignedIds_eq_idsFrom, idsFrom_eq_range _ 1 (by omega)]
  refine ⟨he, ?_, ?_, ?_⟩ <;> rw [he]
  · exact List.nodup_range' _ _
  · intro i hi
    rw [List.mem_range'_1] at hi
    omega
  · cases hk : connectCount ns with
    | zero => simp
    | succ k =>
      rw [List.range'_succ 1 k 1]
      exact List.chain_lt_range' 1 k (by omega)

/-- Witness for `server_ids_distinct_monotone`: connect, disconnect,
connect assigns ids 1 and 2. -/
theorem server_ids_distinct_monotone_witness :
    (serverAssignedIds [ServerNotif.connect 5, ServerNotif.disconnect 5,
        ServerNotif.connect 9] =
      List.range' 1 (connectCount [ServerNotif.connect 5, ServerNotif.disconnect 5,
        ServerNotif.connect 9])) ∧
    (serverAssignedIds [ServerNotif.connect 5, ServerNotif.disconnect 5,
        ServerNotif.connect 9]).Nodup ∧
    (∀ i ∈ serverAssignedIds [ServerNotif.connect 5, ServerNotif.disconnect 5,
        ServerNotif.connect 9], 0 < i) ∧
    (serverAssignedIds [ServerNotif.connect 5, ServerNotif.disconnect 5,
        ServerNotif.connect 9]).Chain' (· < ·) :=
  server_ids_distinct_monotone _ (by decide)

/-- Claim C5 (counterexample to the claim as stated): `curid` is a
`uint32`, so on the sequence of 2^32 CONNECT notifications the counter
wraps and the id 0 -- not a positive integer, and about to collide with
reassigned earlier ids -- is handed out, refuting the claim for that
concrete input. -/
theorem server_ids_wrap_at_2pow32 :
    ¬ ∀ i ∈ serverAssignedIds (List.replicate (2 ^ 32) (ServerNotif.connect 7)), 0 < i := by
  intro h
  have h0 : 0 ∈ serverAssignedIds (List.replicate (2 ^ 32) (ServerNotif.connect 7)) := by
    rw [serverAssignedIds_eq_idsFrom, connectCount_replicate]
    exact zero_mem_idsFrom _ 1 (by omega) (by omega)
  exact absurd (h 0 h0) (by omega)

/-- Witness for `packet_encode_decode_roundtrip` on the packet
`{id: 1, type: 2, payload: "hi"}`. -/
theorem packet_encode_decode_roundtrip_witness :
    deserialize_packet (serialize_packet packet0) = Option.some packet0 :=
  packet_encode_decode_roundtrip 1 2 [104, 105] (by decide) (by decide)

/-- Witness for `deserialize_truncation_spec` on a 9-byte input. -/
theorem deserialize_truncation_spec_witness :
    (deserialize_packet [1, 0, 0, 0, 2, 0, 0, 0, 104] = Option.none ↔
      ([1, 0, 0, 0, 2, 0, 0, 0, 104] : List Nat).length < 8) ∧
    (∀ p, deserialize_packet [1, 0, 0, 0, 2, 0, 0, 0, 104] = Option.some p →
      u32ToBytes p.header.id ++ u32ToBytes p.header.type =
        ([1, 0, 0, 0, 2, 0, 0, 0, 104] : List Nat).take 8 ∧
      p.data = ([1, 0, 0, 0, 2, 0, 0, 0, 104] : List Nat).drop 8) :=
  deserialize_truncation_spec [1, 0, 0, 0, 2, 0, 0, 0, 104] (by decide)

/-- Witness for `unpack_data_size_spec` with a 2-byte payload and
`sizeof(T) = 2`. -/
theorem unpack_data_size_spec_witness :
    ((Packet.unpack_data 2 packet0).isSome ↔ packet0.data.length = 2) ∧
    (∀ v, Packet.unpack_data 2 packet0 = Option.some v → v = packet0.data) :=
  unpack_data_size_spec 2 packet0 (by decide)

end Scarabnet
